import Mathlib

/-!
Shallow embedding of `src/etymlib.py` (the etymology dual-graph store).

Strings are modelled as `List Char` (`Str`); Python `str.split()`,
`' '.join`, `str.strip(c)` and truthiness are embedded explicitly.
`networkx.DiGraph` is modelled as an insertion-ordered node list plus an
insertion-ordered edge list without duplicates (a `networkx` digraph cannot
hold parallel edges); `predecessors`/`successors` scan the edge list.
Python dicts become insertion-ordered association lists.  Code that can
raise (`Root.__init__` unpacking, `next` on an empty generator, missing
dict keys, `zip(xs, None)`) is embedded in `Except String`.
-/

abbrev Str := List Char

def strOf (s : String) : Str := s.data

/-- Whitespace characters recognised by Python `str.split()` (ASCII range). -/
def isPySpace (c : Char) : Bool :=
  c = ' ' || c = '\t' || c = '\n' || c = '\x0b' || c = '\x0c' || c = '\r'

/-- Worker for `str.split()`: `acc` holds the current token reversed. -/
def pySplitGo : Str → Str → List Str
  | [], [] => []
  | [], acc => [acc.reverse]
  | c :: rest, acc =>
    if isPySpace c then
      match acc with
      | [] => pySplitGo rest []
      | _ => acc.reverse :: pySplitGo rest []
    else pySplitGo rest (c :: acc)

/-- Python `s.split()` with no argument: split on whitespace runs,
discarding leading and trailing whitespace. -/
def pySplit (s : Str) : List Str := pySplitGo s []

/-- Python `' '.join(xs)`. -/
def pyJoinSpace : List Str → Str
  | [] => []
  | [x] => x
  | x :: xs => x ++ ' ' :: pyJoinSpace xs

/-- Python `s.strip(c)` for a single-character argument: remove every
leading and trailing occurrence of `c`. -/
def pyStrip (c : Char) (s : Str) : Str :=
  ((s.dropWhile (fun d => d = c)).reverse.dropWhile (fun d => d = c)).reverse

/-- Python `xs[i]`, raising `IndexError` when out of range. -/
def pyIdx (xs : List α) (i : Nat) : Except String α :=
  match xs.get? i with
  | some a => .ok a
  | none => .error "IndexError"

/-- The `info` attribute bags are JSON objects; only their truthiness and
identity matter to the core, so a dict is an association list. -/
abbrev Info := List (Str × Str)

/-- Python truthiness of an optional dict: `None` and `{}` are falsy. -/
def pyTruthyInfo : Option Info → Bool
  | none => false
  | some d => !d.isEmpty

/-- Python `x == y` where `y : str | None`: comparing a `str` to `None`
yields `False`. -/
def pyEqOpt (t : Str) : Option Str → Bool
  | some s => decide (t = s)
  | none => false

/-- Insertion-ordered association list standing in for a Python dict:
lookup by key. -/
def dictGet : List (Str × α) → Str → Option α
  | [], _ => none
  | p :: ps, k => if p.1 = k then some p.2 else dictGet ps k

/-- Python `d[k] = v`: update in place (keeping insertion position) or
append when the key is new. -/
def dictSet : List (Str × α) → Str → α → List (Str × α)
  | [], k, v => [(k, v)]
  | p :: ps, k, v => if p.1 = k then (k, v) :: ps else p :: dictSet ps k v

/-- A `networkx.DiGraph`: node list and duplicate-free edge list, both in
insertion order. -/
structure DiGraph where
  nodes : List Str
  edges : List (Str × Str)
deriving DecidableEq, Repr

def DiGraph.empty : DiGraph := ⟨[], []⟩

/-- `g.add_node(n)`: a no-op when the node is present. -/
def DiGraph.add_node (g : DiGraph) (n : Str) : DiGraph :=
  if n ∈ g.nodes then g else { g with nodes := g.nodes ++ [n] }

/-- `g.add_edge(u, v)`: inserts missing endpoints, then the edge unless it
is already present (a digraph holds at most one copy of an edge). -/
def DiGraph.add_edge (g : DiGraph) (u v : Str) : DiGraph :=
  if (u, v) ∈ ((g.add_node u).add_node v).edges then (g.add_node u).add_node v
  else { (g.add_node u).add_node v with
         edges := ((g.add_node u).add_node v).edges ++ [(u, v)] }

/-- `g.predecessors(v)` as a list.  `networkx` raises when `v` is not a
node; theorems that rely on this query therefore assume node membership. -/
def DiGraph.predecessors (g : DiGraph) (v : Str) : List Str :=
  (g.edges.filter (fun e => decide (e.2 = v))).map (fun e => e.1)

/-- `g.successors(u)` as a list, with the same membership caveat. -/
def DiGraph.successors (g : DiGraph) (u : Str) : List Str :=
  (g.edges.filter (fun e => decide (e.1 = u))).map (fun e => e.2)

/-- `Lang.__init__`: a thin view on a language key plus its `info` bag
(the `db` back-reference is passed explicitly to the query functions). -/
structure Lang where
  name : Str
  info : Option Info
deriving DecidableEq, Repr

/-- `Root.__init__` stores the three tokens of the key; construction is
split into `Root.mk?` below because unpacking can raise. -/
structure Root where
  lang : Str
  text : Str
  gloss : Str
  info : Option Info
deriving DecidableEq, Repr

/-- `Root.__init__`: `self.lang, self.text, self.gloss = root.split()` —
raises `ValueError` unless the key splits into exactly three tokens. -/
def Root.mk? (root : Str) (info : Option Info) : Except String Root :=
  match pySplit root with
  | [l, t, g] => .ok ⟨l, t, g, info⟩
  | _ => .error "ValueError"

/-- `Root.__str__`: `' '.join([self.lang, self.text, self.gloss])`. -/
def Root.str (r : Root) : Str := pyJoinSpace [r.lang, r.text, r.gloss]

/-- `Lang.__str__` is just the name. -/
def Lang.str (l : Lang) : Str := l.name

/-- `EtymologyData`: the two graphs and the two key-to-entity dicts.
`langs_graph`/`roots_graph` are the attributes that the graph branch of
`read_json` assigns (note the names: they are new attributes, distinct
from `lang_graph`/`root_graph`, and nothing ever reads them). -/
structure EtymologyData where
  lang_graph : DiGraph
  root_graph : DiGraph
  langs : List (Str × Lang)
  roots : List (Str × Root)
  langs_graph : Option DiGraph
  roots_graph : Option DiGraph
deriving DecidableEq, Repr

/-- `EtymologyData()` with no path: two empty graphs, two empty dicts. -/
def EtymologyData.empty : EtymologyData := ⟨DiGraph.empty, DiGraph.empty, [], [], none, none⟩

/-- `_create_lang`: add node and entity when absent; otherwise replace
`info` when the new bag is truthy. -/
def EtymologyData.create_lang (st : EtymologyData) (name : Str) (info : Option Info) :
    EtymologyData :=
  match dictGet st.langs name with
  | none =>
    { st with lang_graph := st.lang_graph.add_node name,
              langs := dictSet st.langs name ⟨name, info⟩ }
  | some l =>
    if pyTruthyInfo info then { st with langs := dictSet st.langs name ⟨l.name, info⟩ }
    else st

/-- `_create_root`: like `_create_lang` but `Root` construction can raise.
(Python adds the graph node before the constructor raises; the error path
aborts here, and no claim observes a store after an exception.) -/
def EtymologyData.create_root (st : EtymologyData) (root : Str) (info : Option Info) :
    Except String EtymologyData :=
  match dictGet st.roots root with
  | none =>
    match Root.mk? root info with
    | .error e => .error e
    | .ok r =>
      .ok { st with root_graph := st.root_graph.add_node root,
                    roots := dictSet st.roots root r }
  | some r =>
    .ok (if pyTruthyInfo info
         then { st with roots := dictSet st.roots root ⟨r.lang, r.text, r.gloss, info⟩ }
         else st)

/-- `add_lang(name, source, info)`; `if not source` treats `None` and the
empty string as falsy.  (The Python method also returns `self.langs[name]`;
theorems look the entity up explicitly.) -/
def EtymologyData.add_lang (st : EtymologyData) (name : Str) (source : Option Str)
    (info : Option Info) : EtymologyData :=
  match source with
  | none => st.create_lang name info
  | some s =>
    if s = [] then st.create_lang name info
    else
      let st1 := st.create_lang s none
      let st2 := st1.create_lang name info
      { st2 with lang_graph := st2.lang_graph.add_edge s name }

/-- The `for source in sources` body of `add_root`. -/
def EtymologyData.add_root_sources (root : Str) :
    EtymologyData → List Str → Except String EtymologyData
  | st, [] => .ok st
  | st, s :: ss =>
    match st.create_root s none with
    | .error e => .error e
    | .ok st1 =>
      EtymologyData.add_root_sources root
        { st1 with root_graph := st1.root_graph.add_edge s root } ss

/-- `add_root(root, sources, info)`; `if not sources` treats `None` and
`[]` as falsy. -/
def EtymologyData.add_root (st : EtymologyData) (root : Str) (sources : Option (List Str))
    (info : Option Info) : Except String EtymologyData :=
  match sources with
  | none => st.create_root root info
  | some ss =>
    if ss = [] then st.create_root root info
    else
      match st.create_root root info with
      | .error e => .error e
      | .ok st1 => EtymologyData.add_root_sources root st1 ss

/-- The loop of `add_langs_from` over the zipped pairs. -/
def EtymologyData.add_langs_from_go (info : Option Info) :
    EtymologyData → List (Str × Option Str) → EtymologyData
  | st, [] => st
  | st, (l, s) :: rest =>
    EtymologyData.add_langs_from_go info (st.add_lang l s info) rest

/-- `add_langs_from(langs, sources, info)`: `zip(langs, sources)` raises
`TypeError` immediately when `sources` is `None` (before any insertion);
otherwise the zip truncates to the shorter list. -/
def EtymologyData.add_langs_from (st : EtymologyData) (langs : List Str)
    (sources : Option (List (Option Str))) (info : Option Info) :
    Except String EtymologyData :=
  match sources with
  | none => .error "TypeError: zip argument 2 must support iteration"
  | some ss => .ok (EtymologyData.add_langs_from_go info st (langs.zip ss))

/-- `Lang.source()`: first predecessor in the language graph, or `None`. -/
def Lang.source (db : EtymologyData) (l : Lang) : Option Str :=
  (db.lang_graph.predecessors l.name).head?

/-- `Lang.children()`: successors in the language graph. -/
def Lang.children (db : EtymologyData) (l : Lang) : List Str :=
  db.lang_graph.successors l.name

/-- The list comprehension of `Lang.vocab`: `root.split()[0]` can raise on
a token-free node, aborting the whole comprehension. -/
def vocabGo (name : Str) : List Str → Except String (List Str)
  | [] => .ok []
  | r :: rs =>
    match (pySplit r).head? with
    | none => .error "IndexError"
    | some t =>
      match vocabGo name rs with
      | .error e => .error e
      | .ok rest => .ok (if t = name then r :: rest else rest)

/-- `Lang.vocab()`: root-graph nodes whose first token is this language. -/
def Lang.vocab (db : EtymologyData) (l : Lang) : Except String (List Str) :=
  vocabGo l.name db.root_graph.nodes

/-- `next(gen)` over a guarded generator: first element satisfying the
(possibly raising) test, else `StopIteration`. -/
def findFirst (p : Str → Except String Bool) : List Str → Except String Str
  | [] => .error "StopIteration"
  | x :: xs =>
    match p x with
    | .error e => .error e
    | .ok b => if b then .ok x else findFirst p xs

/-- Python `d[k]` on a dict, raising `KeyError` when absent. -/
def pyDictGet (d : List (Str × α)) (k : Str) : Except String α :=
  match dictGet d k with
  | some v => .ok v
  | none => .error "KeyError"

/-- `Lang.__getitem__(key)`: gloss lookup when the key starts with `<`
(after stripping the angle brackets), otherwise text lookup; returns the
first matching root of the vocabulary via `next`. -/
def Lang.getitem (db : EtymologyData) (l : Lang) (key : Str) : Except String Root :=
  match pyIdx key 0 with
  | .error e => .error e
  | .ok c =>
    match l.vocab db with
    | .error e => .error e
    | .ok v =>
      match
        (if c = '<' then
          findFirst (fun root =>
            match pyIdx (pySplit root) 2 with
            | .error e => .error e
            | .ok t => .ok (decide (t = pyStrip '>' (pyStrip '<' key)))) v
        else
          findFirst (fun root =>
            match pyIdx (pySplit root) 1 with
            | .error e => .error e
            | .ok t => .ok (decide (t = key))) v) with
      | .error e => .error e
      | .ok r => pyDictGet db.roots r

/-- `Root.language()`: `self.db.langs[self.lang]`, raising `KeyError`. -/
def Root.language (db : EtymologyData) (r : Root) : Except String Lang :=
  pyDictGet db.langs r.lang

/-- `Root.sources()`: predecessors of the rendered key. -/
def Root.sources (db : EtymologyData) (r : Root) : List Str :=
  db.root_graph.predecessors r.str

/-- `Root.children()` as written in the source (line 224): it queries
`predecessors`, exactly like `sources()`, although its docstring announces
child roots. -/
def Root.children (db : EtymologyData) (r : Root) : List Str :=
  db.root_graph.predecessors r.str

/-- `Root.is_compound()`: strictly more than one source. -/
def Root.is_compound (db : EtymologyData) (r : Root) : Bool :=
  decide ((r.sources db).length > 1)

/-- `Root.is_inherited()`: `False` when compound; with at least one source,
compare the first source's language token against the parent language;
with no sources the function falls off the end and returns `None`. -/
def Root.is_inherited (db : EtymologyData) (r : Root) : Except String (Option Bool) :=
  if r.is_compound db then .ok (some false)
  else
    match r.sources db with
    | [] => .ok none
    | s :: _ =>
      match pyIdx (pySplit s) 0 with
      | .error e => .error e
      | .ok t =>
        match r.language db with
        | .error e => .error e
        | .ok L => .ok (some (pyEqOpt t (Lang.source db L)))

/-- A node-link encoding of a digraph (`node_link_data` with an `edges`
key): node list plus source/target edge list. -/
structure NodeLink where
  nodes : List Str
  edges : List (Str × Str)
deriving DecidableEq, Repr

/-- `node_link_data(g, edges='edges')`. -/
def nl_data (g : DiGraph) : NodeLink := ⟨g.nodes, g.edges⟩

/-- `node_link_graph(d, edges='edges')`. -/
def nl_graph (d : NodeLink) : DiGraph := ⟨d.nodes, d.edges⟩

/-- A serialized language entry; `source = none` models the key being
absent from the JSON object (graph form), `some v` a present key of value
`v` (dict form, where `v = none` is JSON `null`). -/
structure LangEntry where
  name : Str
  source : Option (Option Str)
  info : Option Info
deriving DecidableEq, Repr

/-- A serialized root entry, with `sources` present only in dict form. -/
structure RootEntry where
  root : Str
  sources : Option (Option (List Str))
  info : Option Info
deriving DecidableEq, Repr

/-- A top-level JSON document.  The node-link dicts produced by
`node_link_data` are never empty, so their Python truthiness coincides
with presence (`null` is falsy). -/
structure Document where
  lang_graph : Option NodeLink
  root_graph : Option NodeLink
  langs : List LangEntry
  roots : List RootEntry
deriving DecidableEq, Repr

/-- `Lang._graph_json()`: name and info only, no source field. -/
def Lang.graph_json (l : Lang) : LangEntry := ⟨l.name, none, l.info⟩

/-- `Root._graph_json()`: rendered key and info only. -/
def Root.graph_json (r : Root) : RootEntry := ⟨r.str, none, r.info⟩

/-- `EtymologyData._graph_json()`: the document that `write_graph_json`
dumps (file I/O aside, the document is the written content). -/
def EtymologyData.graph_json (st : EtymologyData) : Document :=
  ⟨some (nl_data st.lang_graph), some (nl_data st.root_graph),
   st.langs.map (fun p => p.2.graph_json),
   st.roots.map (fun p => p.2.graph_json)⟩

/-- The `for lang in data['langs']` loop of the graph branch. -/
def readGraphLangs : EtymologyData → List LangEntry → EtymologyData
  | st, [] => st
  | st, e :: es => readGraphLangs (st.create_lang e.name e.info) es

/-- The `for root in data['roots']` loop of the graph branch. -/
def readGraphRoots : EtymologyData → List RootEntry → Except String EtymologyData
  | st, [] => .ok st
  | st, e :: es =>
    match st.create_root e.root e.info with
    | .error err => .error err
    | .ok st1 => readGraphRoots st1 es

/-- The `for lang in data['langs']` loop of the dict branch; `lang['source']`
raises `KeyError` when the field is absent. -/
def readDictLangs : EtymologyData → List LangEntry → Except String EtymologyData
  | st, [] => .ok st
  | st, e :: es =>
    match e.source with
    | none => .error "KeyError"
    | some s => readDictLangs (st.add_lang e.name s e.info) es

/-- The `for root in data['roots']` loop of the dict branch. -/
def readDictRoots : EtymologyData → List RootEntry → Except String EtymologyData
  | st, [] => .ok st
  | st, e :: es =>
    match e.sources with
    | none => .error "KeyError"
    | some ss =>
      match st.add_root e.root ss e.info with
      | .error err => .error err
      | .ok st1 => readDictRoots st1 es

/-- `read_json`: when either graph field is truthy, assign the decoded
graphs to the (new, otherwise unused) attributes `langs_graph` and
`roots_graph` and recreate bare nodes from the attribute lists; otherwise
rebuild through `add_lang`/`add_root` from the per-entity fields. -/
def EtymologyData.read_json (st : EtymologyData) (data : Document) :
    Except String EtymologyData :=
  if data.lang_graph.isSome || data.root_graph.isSome then
    match data.lang_graph, data.root_graph with
    | some lg, some rg =>
      readGraphRoots
        (readGraphLangs
          { st with langs_graph := some (nl_graph lg),
                    roots_graph := some (nl_graph rg) }
          data.langs)
        data.roots
    | _, _ => .error "AttributeError"
  else
    match readDictLangs st data.langs with
    | .error e => .error e
    | .ok st1 => readDictRoots st1 data.roots

/-! Concrete stores and entities used by the claim theorems and
their witnesses. -/

/-- A clean token: nonempty and free of whitespace, as the root-key
invariant demands. -/
def cleanTok (s : Str) : Prop := s ≠ [] ∧ ∀ x ∈ s, isPySpace x = false

instance (s : Str) : Decidable (cleanTok s) := by
  unfold cleanTok; infer_instance

/-- A store holding the single derivation edge `"a x y" → "b x z"`,
built by `add_root`. -/
def edgeStore : Except String EtymologyData :=
  EtymologyData.empty.add_root (strOf "b x z") (some [strOf "a x y"]) none

/-- Unwrap an `Except`-wrapped store (used only to name concrete stores
in witnesses; every use is on an `ok` value). -/
def orEmpty (e : Except String EtymologyData) : EtymologyData :=
  match e with
  | .ok st => st
  | .error _ => EtymologyData.empty

/-- A one-root store for the C9 witness. -/
def c9_st : EtymologyData :=
  ⟨DiGraph.empty, ⟨[strOf "a x y"], []⟩, [],
   [(strOf "a x y", ⟨strOf "a", strOf "x", strOf "y", none⟩)], none, none⟩

/-- The root entity of `c9_st`. -/
def c9_rd : Root := ⟨strOf "a", strOf "x", strOf "y", none⟩

/-- A two-language store for the C7 witness: roots `"a x y"` and
`"b x y"` share text and gloss but belong to different languages. -/
def c7_store : Except String EtymologyData :=
  match EtymologyData.empty.add_root (strOf "a x y") none none with
  | .error e => .error e
  | .ok st1 => st1.add_root (strOf "b x y") none none

def c7_st : EtymologyData := orEmpty c7_store

def c4_st1 : EtymologyData :=
  orEmpty (EtymologyData.empty.add_root (strOf "b x z") (some [strOf "a x y"]) none)

def c4_st2 : EtymologyData :=
  orEmpty (c4_st1.add_root (strOf "b x z") (some [strOf "a x y"]) none)

def c5_st : EtymologyData :=
  orEmpty (EtymologyData.empty.add_root (strOf "c x y")
    (some [strOf "a x y", strOf "b x y"]) none)

def c5_rd : Root := ⟨strOf "c", strOf "x", strOf "y", none⟩

def c6_goal : Prop :=
  ((EtymologyData.empty.add_lang (strOf "lang2") (some (strOf "lang1")) none).add_root
      (pyJoinSpace [strOf "lang2", strOf "foo", strOf "bar"])
      (some [pyJoinSpace [strOf "lang1", strOf "foo", strOf "bar"]]) none).map
    (fun st' => (dictGet st'.roots
        (pyJoinSpace [strOf "lang2", strOf "foo", strOf "bar"])).map
      (fun rd => (rd.is_compound st', rd.is_inherited st')))
  = .ok (some (false, .ok (some true)))

/-- A store with one language `L` and two roots sharing the text token
`a`: `"L a g1"` and `"L a g2"`. -/
def c3_store : Except String EtymologyData :=
  match (EtymologyData.empty.add_lang (strOf "L") none none).add_root
      (strOf "L a g1") none none with
  | .error e => .error e
  | .ok st1 => st1.add_root (strOf "L a g2") none none

def c3_st : EtymologyData := orEmpty c3_store

def c3_L : Lang := ⟨strOf "L", none⟩

/-! Helper lemmas about the string primitives, dicts, graphs and the
store operations. -/

theorem pySplitGo_token (t : Str) (ht : ∀ x ∈ t, isPySpace x = false) :
    ∀ rest acc, pySplitGo (t ++ rest) acc = pySplitGo rest (t.reverse ++ acc) := by
  induction t with
  | nil => intro rest acc; simp
  | cons c t' ih =>
    intro rest acc
    have hc : isPySpace c = false := ht c (List.mem_cons_self c t')
    have ht' : ∀ x ∈ t', isPySpace x = false := fun x hx => ht x (List.mem_cons_of_mem c hx)
    simp only [List.cons_append, pySplitGo, hc, Bool.false_eq_true, if_false]
    show pySplitGo (t' ++ rest) (c :: acc) = _
    rw [ih ht' rest (c :: acc)]
    simp

theorem pySplitGo_space (c : Char) (hc : isPySpace c = true) (rest : Str) (acc : Str)
    (hacc : acc ≠ []) :
    pySplitGo (c :: rest) acc = acc.reverse :: pySplitGo rest [] := by
  cases acc with
  | nil => exact absurd rfl hacc
  | cons a as => simp [pySplitGo, hc]

theorem pySplitGo_nil_acc (acc : Str) (hacc : acc ≠ []) :
    pySplitGo [] acc = [acc.reverse] := by
  cases acc with
  | nil => exact absurd rfl hacc
  | cons a as => rfl

theorem pyJoinSpace_three (a b c : Str) :
    pyJoinSpace [a, b, c] = a ++ ' ' :: (b ++ ' ' :: c) := by
  simp [pyJoinSpace]

/-- Splitting a lone clean token yields that token. -/
theorem pySplit_single (t : Str) (ht : cleanTok t) : pySplitGo t [] = [t] := by
  calc pySplitGo t [] = pySplitGo (t ++ []) [] := by simp
    _ = pySplitGo [] (t.reverse ++ []) := pySplitGo_token t ht.2 [] []
    _ = [t] := by
        rw [pySplitGo_nil_acc _ (by simpa using ht.1)]
        simp

/-- Splitting a single-space join of three clean tokens recovers the
tokens: the core of the key round trip. -/
theorem pySplit_join3 (a b c : Str) (ha : cleanTok a) (hb : cleanTok b) (hc : cleanTok c) :
    pySplit (pyJoinSpace [a, b, c]) = [a, b, c] := by
  rw [pyJoinSpace_three]
  unfold pySplit
  rw [pySplitGo_token a ha.2,
      pySplitGo_space ' ' (by decide) _ _ (by simpa using ha.1),
      pySplitGo_token b hb.2,
      pySplitGo_space ' ' (by decide) _ _ (by simpa using hb.1),
      pySplit_single c hc]
  simp

/-- Joins of clean token triples are injective (via the round trip). -/
theorem pyJoinSpace_inj3 (a b c a2 b2 c2 : Str)
    (ha : cleanTok a) (hb : cleanTok b) (hc : cleanTok c)
    (ha2 : cleanTok a2) (hb2 : cleanTok b2) (hc2 : cleanTok c2)
    (h : pyJoinSpace [a, b, c] = pyJoinSpace [a2, b2, c2]) :
    a = a2 ∧ b = b2 ∧ c = c2 := by
  have := pySplit_join3 a b c ha hb hc
  rw [h, pySplit_join3 a2 b2 c2 ha2 hb2 hc2] at this
  simp_all

theorem dictGet_dictSet_self (d : List (Str × α)) (k : Str) (v : α) :
    dictGet (dictSet d k v) k = some v := by
  induction d with
  | nil => simp [dictGet, dictSet]
  | cons p ps ih =>
    by_cases h : p.1 = k
    · simp [dictGet, dictSet, h]
    · simp [dictGet, dictSet, h, ih]

theorem dictGet_dictSet_ne (d : List (Str × α)) (k k2 : Str) (v : α) (h : k2 ≠ k) :
    dictGet (dictSet d k v) k2 = dictGet d k2 := by
  have hk : k ≠ k2 := fun hh => h hh.symm
  induction d with
  | nil => simp [dictGet, dictSet, hk]
  | cons p ps ih =>
    by_cases hp : p.1 = k
    · have hp2 : p.1 ≠ k2 := by rw [hp]; exact hk
      simp [dictSet, if_pos hp, dictGet, hk, hp2]
    · simp only [dictSet, if_neg hp, dictGet]
      by_cases hp2 : p.1 = k2
      · simp [hp2]
      · simp [hp2, ih]

theorem vocabGo_mem (name : Str) (k : Str) (xs : List Str) (v : List Str)
    (h : vocabGo name xs = .ok v) :
    k ∈ v ↔ k ∈ xs ∧ (pySplit k).head? = some name := by
  induction xs generalizing v with
  | nil =>
    simp only [vocabGo, Except.ok.injEq] at h
    subst h
    simp
  | cons r rs ih =>
    cases hh : (pySplit r).head? with
    | none =>
      simp only [vocabGo, hh] at h
      exact Except.noConfusion h
    | some t =>
      cases hrest : vocabGo name rs with
      | error e =>
        simp only [vocabGo, hh, hrest] at h
        exact Except.noConfusion h
      | ok rest =>
        simp only [vocabGo, hh, hrest, Except.ok.injEq] at h
        have hmem := ih rest hrest
        by_cases ht : t = name
        · subst ht
          rw [if_pos rfl] at h
          subst h
          constructor
          · intro hk
            rcases List.mem_cons.mp hk with hk | hk
            · subst hk; exact ⟨List.mem_cons_self _ _, hh⟩
            · exact ⟨List.mem_cons_of_mem _ (hmem.mp hk).1, (hmem.mp hk).2⟩
          · rintro ⟨hk, hsp⟩
            rcases List.mem_cons.mp hk with hk | hk
            · subst hk; exact List.mem_cons_self _ _
            · exact List.mem_cons_of_mem _ (hmem.mpr ⟨hk, hsp⟩)
        · rw [if_neg ht] at h
          subst h
          rw [hmem]
          constructor
          · rintro ⟨hk, hsp⟩
            exact ⟨List.mem_cons_of_mem _ hk, hsp⟩
          · rintro ⟨hk, hsp⟩
            rcases List.mem_cons.mp hk with hk | hk
            · subst hk; rw [hh] at hsp; cases hsp; exact absurd rfl ht
            · exact ⟨hk, hsp⟩

theorem findFirst_eq (p : Str → Except String Bool) (q : Str → Bool) (v : List Str)
    (h : ∀ r ∈ v, p r = .ok (q r)) :
    findFirst p v
      = match v.filter q with
        | [] => .error "StopIteration"
        | m :: _ => .ok m := by
  induction v with
  | nil => rfl
  | cons x xs ih =>
    have hx : p x = .ok (q x) := h x (List.mem_cons_self x xs)
    have ih2 := ih (fun r hr => h r (List.mem_cons_of_mem x hr))
    rw [List.filter_cons]
    by_cases hq : q x = true
    · simp [findFirst, hx, hq]
    · have hre : (if q x = true then x :: xs.filter q else xs.filter q) = xs.filter q :=
        if_neg hq
      rw [hre]
      simp only [findFirst, hx]
      rw [if_neg hq]
      exact ih2

theorem add_node_edges (g : DiGraph) (n : Str) : (g.add_node n).edges = g.edges := by
  unfold DiGraph.add_node; split <;> rfl

theorem add_node_eq_self (g : DiGraph) (n : Str) (h : n ∈ g.nodes) : g.add_node n = g := by
  simp [DiGraph.add_node, h]

theorem mem_add_node_self (g : DiGraph) (n : Str) : n ∈ (g.add_node n).nodes := by
  unfold DiGraph.add_node
  split
  · assumption
  · simp

theorem mem_add_node_of_mem (g : DiGraph) (n m : Str) (h : m ∈ g.nodes) :
    m ∈ (g.add_node n).nodes := by
  unfold DiGraph.add_node
  split
  · exact h
  · simp [h]

theorem add_edge_edges (g : DiGraph) (u v : Str) :
    (g.add_edge u v).edges = if (u, v) ∈ g.edges then g.edges else g.edges ++ [(u, v)] := by
  unfold DiGraph.add_edge
  rw [add_node_edges (g.add_node u) v, add_node_edges g u]
  split
  · rw [add_node_edges (g.add_node u) v, add_node_edges g u]
  · rfl

theorem mem_add_edge_self (g : DiGraph) (u v : Str) : (u, v) ∈ (g.add_edge u v).edges := by
  rw [add_edge_edges]
  split
  · assumption
  · simp

theorem add_edge_edges_mono (g : DiGraph) (u v : Str) (e : Str × Str) (h : e ∈ g.edges) :
    e ∈ (g.add_edge u v).edges := by
  rw [add_edge_edges]
  split
  · exact h
  · simp [h]

theorem add_edge_mem_nodes_left (g : DiGraph) (u v : Str) : u ∈ (g.add_edge u v).nodes := by
  unfold DiGraph.add_edge
  split
  · exact mem_add_node_of_mem _ _ _ (mem_add_node_self g u)
  · show u ∈ ((g.add_node u).add_node v).nodes
    exact mem_add_node_of_mem _ _ _ (mem_add_node_self g u)

theorem add_edge_mem_nodes_right (g : DiGraph) (u v : Str) : v ∈ (g.add_edge u v).nodes := by
  unfold DiGraph.add_edge
  split
  · exact mem_add_node_self _ v
  · show v ∈ ((g.add_node u).add_node v).nodes
    exact mem_add_node_self _ v

theorem add_edge_nodes_mono (g : DiGraph) (u v m : Str) (h : m ∈ g.nodes) :
    m ∈ (g.add_edge u v).nodes := by
  unfold DiGraph.add_edge
  split
  · exact mem_add_node_of_mem _ _ _ (mem_add_node_of_mem _ _ _ h)
  · show m ∈ ((g.add_node u).add_node v).nodes
    exact mem_add_node_of_mem _ _ _ (mem_add_node_of_mem _ _ _ h)

theorem add_edge_nodup (g : DiGraph) (u v : Str) (h : g.edges.Nodup) :
    (g.add_edge u v).edges.Nodup := by
  rw [add_edge_edges]
  split
  · exact h
  · simp [List.nodup_append, h]
    assumption

theorem add_edge_eq_self (g : DiGraph) (u v : Str) (hu : u ∈ g.nodes) (hv : v ∈ g.nodes)
    (he : (u, v) ∈ g.edges) : g.add_edge u v = g := by
  unfold DiGraph.add_edge
  rw [add_node_eq_self g u hu, add_node_eq_self g v hv]
  simp [he]

/-- A list containing an element and free of duplicates holds exactly one
copy of it. -/
theorem filter_singleton_of_nodup {α : Type} [DecidableEq α] (l : List α) (a : α)
    (hd : l.Nodup) (ha : a ∈ l) :
    (l.filter (fun x => decide (x = a))).length = 1 := by
  induction l with
  | nil => cases ha
  | cons x xs ih =>
    rw [List.filter_cons]
    rcases List.mem_cons.mp ha with rfl | h
    · rw [if_pos (by simp)]
      have hnot : a ∉ xs := (List.nodup_cons.mp hd).1
      have hnil : xs.filter (fun y => decide (y = a)) = [] := by
        rw [List.filter_eq_nil_iff]
        intro b hb
        simp only [decide_eq_true_eq]
        exact fun hba => hnot (hba ▸ hb)
      simp [hnil]
    · have hx : x ≠ a := fun he => (List.nodup_cons.mp hd).1 (he ▸ h)
      rw [if_neg (by simp [hx])]
      exact ih (List.nodup_cons.mp hd).2 h

/-- A list with two distinct members has length at least two. -/
theorem two_mem_one_lt {α : Type} (l : List α) (x y : α) (hx : x ∈ l) (hy : y ∈ l)
    (hxy : x ≠ y) : 1 < l.length := by
  cases l with
  | nil => cases hx
  | cons a as =>
    cases as with
    | nil =>
      simp only [List.mem_singleton] at hx hy
      exact absurd (hx.trans hy.symm) hxy
    | cons b bs => simp [List.length_cons]

theorem create_root_ok (st : EtymologyData) (root : Str) (info : Option Info)
    (st2 : EtymologyData) (h : st.create_root root info = .ok st2) :
    st2.root_graph.edges = st.root_graph.edges
    ∧ (∀ n, n ∈ st.root_graph.nodes → n ∈ st2.root_graph.nodes)
    ∧ (∀ k, (dictGet st.roots k).isSome → (dictGet st2.roots k).isSome)
    ∧ (dictGet st2.roots root).isSome := by
  unfold EtymologyData.create_root at h
  cases hd : dictGet st.roots root with
  | none =>
    rw [hd] at h
    cases hr : Root.mk? root info with
    | error e => rw [hr] at h; exact Except.noConfusion h
    | ok r =>
      rw [hr] at h
      cases h
      refine ⟨add_node_edges _ _, fun n hn => mem_add_node_of_mem _ _ _ hn, ?_, ?_⟩
      · intro k hk
        by_cases hkr : k = root
        · subst hkr; simp [dictGet_dictSet_self]
        · rw [dictGet_dictSet_ne _ _ _ _ hkr]; exact hk
      · simp [dictGet_dictSet_self]
  | some r =>
    rw [hd] at h
    cases h
    by_cases ht : pyTruthyInfo info = true
    · rw [if_pos ht]
      refine ⟨rfl, fun n hn => hn, ?_, ?_⟩
      · intro k hk
        by_cases hkr : k = root
        · subst hkr; simp [dictGet_dictSet_self]
        · simp only [dictGet_dictSet_ne _ _ _ _ hkr]; exact hk
      · simp [dictGet_dictSet_self]
    · rw [if_neg ht]
      exact ⟨rfl, fun n hn => hn, fun k hk => hk, by simp [hd]⟩

theorem create_root_present_none (st : EtymologyData) (root : Str)
    (h : (dictGet st.roots root).isSome) : st.create_root root none = .ok st := by
  unfold EtymologyData.create_root
  cases hd : dictGet st.roots root with
  | none => rw [hd] at h; exact absurd h (by simp)
  | some r => simp [pyTruthyInfo]

/-- Unfolding `add_root` for a single-element source list: both creations
succeed. -/
theorem add_root_single_ok (st : EtymologyData) (r s : Str) (info : Option Info)
    (stA stB : EtymologyData) (hA : st.create_root r info = .ok stA)
    (hB : stA.create_root s none = .ok stB) :
    st.add_root r (some [s]) info
      = .ok { stB with root_graph := stB.root_graph.add_edge s r } := by
  simp [EtymologyData.add_root, EtymologyData.add_root_sources, hA, hB]

/-- Unfolding `add_root` for a single-element source list: the root
creation fails. -/
theorem add_root_single_err1 (st : EtymologyData) (r s : Str) (info : Option Info)
    (e : String) (hA : st.create_root r info = .error e) :
    st.add_root r (some [s]) info = .error e := by
  simp [EtymologyData.add_root, hA]

/-- Unfolding `add_root` for a single-element source list: the source
creation fails. -/
theorem add_root_single_err2 (st : EtymologyData) (r s : Str) (info : Option Info)
    (stA : EtymologyData) (e : String) (hA : st.create_root r info = .ok stA)
    (hB : stA.create_root s none = .error e) :
    st.add_root r (some [s]) info = .error e := by
  simp [EtymologyData.add_root, EtymologyData.add_root_sources, hA, hB]

/-- A successful single-source `add_root` decomposes into its two
creations and the edge insertion. -/
theorem add_root_single_ok_elim (st : EtymologyData) (r s : Str) (info : Option Info)
    (st1 : EtymologyData) (h : st.add_root r (some [s]) info = .ok st1) :
    ∃ stA stB, st.create_root r info = .ok stA ∧ stA.create_root s none = .ok stB
      ∧ st1 = { stB with root_graph := stB.root_graph.add_edge s r } := by
  cases hA : st.create_root r info with
  | error e =>
    rw [add_root_single_err1 st r s info e hA] at h
    exact Except.noConfusion h
  | ok stA =>
    cases hB : stA.create_root s none with
    | error e =>
      rw [add_root_single_err2 st r s info stA e hA hB] at h
      exact Except.noConfusion h
    | ok stB =>
      rw [add_root_single_ok st r s info stA stB hA hB] at h
      refine ⟨stA, stB, rfl, hB, ?_⟩
      injection h with h
      exact h.symm

theorem add_root_sources_cons_err (root s : Str) (rest : List Str) (st : EtymologyData)
    (e : String) (hc : st.create_root s none = .error e) :
    EtymologyData.add_root_sources root st (s :: rest) = .error e := by
  simp [EtymologyData.add_root_sources, hc]

theorem add_root_sources_cons_ok (root s : Str) (rest : List Str) (st st1 : EtymologyData)
    (hc : st.create_root s none = .ok st1) :
    EtymologyData.add_root_sources root st (s :: rest)
      = EtymologyData.add_root_sources root
          { st1 with root_graph := st1.root_graph.add_edge s root } rest := by
  simp [EtymologyData.add_root_sources, hc]

theorem add_root_sources_edges (root : Str) (ss : List Str) (st st' : EtymologyData)
    (h : EtymologyData.add_root_sources root st ss = .ok st') :
    (∀ e ∈ st.root_graph.edges, e ∈ st'.root_graph.edges)
    ∧ (∀ s ∈ ss, (s, root) ∈ st'.root_graph.edges) := by
  induction ss generalizing st with
  | nil =>
    have hst : st = st' := by
      simp only [EtymologyData.add_root_sources, Except.ok.injEq] at h
      exact h
    subst hst
    exact ⟨fun e he => he, fun s hs => absurd hs (List.not_mem_nil s)⟩
  | cons s rest ih =>
    cases hc : st.create_root s none with
    | error e =>
      rw [add_root_sources_cons_err root s rest st e hc] at h
      exact Except.noConfusion h
    | ok st1 =>
      rw [add_root_sources_cons_ok root s rest st st1 hc] at h
      obtain ⟨e1, _, _, _⟩ := create_root_ok st s none st1 hc
      obtain ⟨ihm, ihs⟩ := ih _ h
      have hmono : ∀ e ∈ st.root_graph.edges, e ∈ st'.root_graph.edges := by
        intro e he
        apply ihm
        show e ∈ (st1.root_graph.add_edge s root).edges
        apply add_edge_edges_mono
        rw [e1]
        exact he
      refine ⟨hmono, ?_⟩
      intro t ht
      rcases List.mem_cons.mp ht with rfl | ht
      · apply ihm
        exact mem_add_edge_self _ _ _
      · exact ihs t ht

theorem add_root_cons_err (st : EtymologyData) (r : Str) (ss : List Str)
    (info : Option Info) (e : String) (hne : ss ≠ [])
    (hc : st.create_root r info = .error e) :
    st.add_root r (some ss) info = .error e := by
  simp [EtymologyData.add_root, hne, hc]

theorem add_root_cons_ok (st : EtymologyData) (r : Str) (ss : List Str)
    (info : Option Info) (stA : EtymologyData) (hne : ss ≠ [])
    (hc : st.create_root r info = .ok stA) :
    st.add_root r (some ss) info = EtymologyData.add_root_sources r stA ss := by
  simp [EtymologyData.add_root, hne, hc]

/-- Every listed source gains an edge into the new root. -/
theorem add_root_ok_edges (st : EtymologyData) (r : Str) (ss : List Str)
    (info : Option Info) (st' : EtymologyData) (hne : ss ≠ [])
    (h : st.add_root r (some ss) info = .ok st') :
    ∀ s ∈ ss, (s, r) ∈ st'.root_graph.edges := by
  cases hc : st.create_root r info with
  | error e =>
    rw [add_root_cons_err st r ss info e hne hc] at h
    exact Except.noConfusion h
  | ok stA =>
    rw [add_root_cons_ok st r ss info stA hne hc] at h
    exact (add_root_sources_edges r ss stA st' h).2

/-! The claim theorems. -/

/-- C1: writing a store in graph form and reloading it does NOT preserve
derivation edges: the pre-write store holds the edge `"a x y" → "b x z"`,
but the reloaded store's root graph (and language graph) have no edges at
all — `read_json` assigns the decoded graphs to the unused attributes
`langs_graph`/`roots_graph` and only recreates bare nodes.  This
contradicts the claimed full round-trip equivalence; the spec itself
flags the load path as defective, so the code, not the claim, is wrong. -/
theorem C1_graph_roundtrip_drops_edges :
    edgeStore.map (fun st => st.root_graph.edges)
      = .ok [(strOf "a x y", strOf "b x z")]
    ∧ edgeStore.map (fun st =>
        (EtymologyData.empty.read_json st.graph_json).map
          (fun st2 => (st2.root_graph.edges, st2.lang_graph.edges)))
      = .ok (.ok ([], [])) :=
  ⟨rfl, rfl⟩

/-- C2: `Root.children()` returns predecessors, not successors.  In the
store with single edge `"a x y" → "b x z"`, the claim demands
`children("a x y") = ["b x z"]` (the graph successors) and
`children("b x z") = []`; the code instead yields `[]` for `"a x y"` and
`["a x y"]` (its predecessor/source) for `"b x z"`. -/
theorem C2_children_returns_predecessors :
    edgeStore.map (fun st =>
      ((dictGet st.roots (strOf "a x y")).map (fun r => r.children st),
       st.root_graph.successors (strOf "a x y"),
       (dictGet st.roots (strOf "b x z")).map (fun r => r.children st)))
      = .ok (some [], [strOf "b x z"], some [strOf "a x y"]) :=
  rfl

/-- C3 counterexample: two distinct roots of language `L` both match the
text lookup `"a"`, yet `Lang[__getitem__]` returns the first of them
(`"L a g1"`) instead of raising: the claimed ambiguity error does not
occur. -/
theorem C3_ambiguous_lookup_returns_first_not_error :
    c3_store.map (fun st =>
      (dictGet st.langs (strOf "L")).map
        (fun L => (L.vocab st, L.getitem st (strOf "a"))))
      = .ok (some (.ok [strOf "L a g1", strOf "L a g2"],
                   .ok ⟨strOf "L", strOf "a", strOf "g1", none⟩))
    ∧ [strOf "L a g1", strOf "L a g2"].filter
        (fun r => decide ((pySplit r).get? 1 = some (strOf "a")))
        = [strOf "L a g1", strOf "L a g2"]
    ∧ strOf "L a g1" ≠ strOf "L a g2" :=
  ⟨rfl, rfl, by decide⟩

/-- C3 amended: the text-branch lookup raises (`StopIteration`) when no
root of the vocabulary matches, and when one or more match it returns the
dict entry of the first match in vocabulary order. -/
theorem C3_text_lookup_first_match (st : EtymologyData) (l : Lang) (key : Str)
    (c : Char) (hhead : key.get? 0 = some c) (hc : c ≠ '<')
    (v : List Str) (hv : l.vocab st = .ok v)
    (hlen : ∀ r ∈ v, 2 ≤ (pySplit r).length) :
    l.getitem st key
      = match v.filter (fun r => decide ((pySplit r).get? 1 = some key)) with
        | [] => .error "StopIteration"
        | m :: _ => pyDictGet st.roots m := by
  have hp : ∀ r ∈ v,
      (match pyIdx (pySplit r) 1 with
        | .error e => .error e
        | .ok t => .ok (decide (t = key)))
      = Except.ok (decide ((pySplit r).get? 1 = some key)) := by
    intro r hr
    cases hget : (pySplit r).get? 1 with
    | none =>
      exfalso
      have := hlen r hr
      rw [List.get?_eq_none] at hget
      omega
    | some t => simp only [pyIdx, hget, Option.some.injEq]
  have hidx : pyIdx key 0 = .ok c := by simp only [pyIdx, hhead]
  have hgi : l.getitem st key
      = match findFirst (fun root =>
            match pyIdx (pySplit root) 1 with
            | .error e => .error e
            | .ok t => .ok (decide (t = key))) v with
        | .error e => .error e
        | .ok r => pyDictGet st.roots r := by
    simp only [Lang.getitem, hidx, hv]
    rw [if_neg hc]
  rw [hgi, findFirst_eq _ (fun r => decide ((pySplit r).get? 1 = some key)) v hp]
  cases hf : v.filter (fun r => decide ((pySplit r).get? 1 = some key)) with
  | nil => rfl
  | cons m ms => rfl

/-- Witness for the amended C3 at the two-match store: the lookup equals
the dict entry of the first match. -/
theorem C3_text_lookup_first_match_witness :
    (strOf "a").get? 0 = some 'a' ∧ 'a' ≠ '<'
    ∧ c3_L.vocab c3_st = .ok [strOf "L a g1", strOf "L a g2"]
    ∧ c3_L.getitem c3_st (strOf "a")
        = match [strOf "L a g1", strOf "L a g2"].filter
            (fun r => decide ((pySplit r).get? 1 = some (strOf "a"))) with
          | [] => .error "StopIteration"
          | m :: _ => pyDictGet c3_st.roots m :=
  ⟨rfl, by decide, rfl,
   C3_text_lookup_first_match c3_st c3_L (strOf "a") 'a' rfl (by decide)
     [strOf "L a g1", strOf "L a g2"] rfl (by decide)⟩

/-- C4: re-adding a root with the same single source is idempotent on
graph structure: one copy of the edge `s → r`, and the second call adds
no nodes. -/
theorem C4_add_root_same_source_idempotent (st : EtymologyData) (r s : Str)
    (st1 st2 : EtymologyData) (hnd : st.root_graph.edges.Nodup)
    (h1 : st.add_root r (some [s]) none = .ok st1)
    (h2 : st1.add_root r (some [s]) none = .ok st2) :
    (st2.root_graph.edges.filter (fun e => decide (e = (s, r)))).length = 1
    ∧ st2.root_graph.nodes = st1.root_graph.nodes := by
  obtain ⟨stA, stB, hA, hB, h1e⟩ := add_root_single_ok_elim st r s none st1 h1
  obtain ⟨eA, nA, dA, rA⟩ := create_root_ok st r none stA hA
  obtain ⟨eB, nB, dB, sB⟩ := create_root_ok stA s none stB hB
  have hst1roots : st1.roots = stB.roots := by rw [h1e]
  have hst1graph : st1.root_graph = stB.root_graph.add_edge s r := by rw [h1e]
  have hrmem : (dictGet st1.roots r).isSome := by rw [hst1roots]; exact dB r rA
  have hsmem : (dictGet st1.roots s).isSome := by rw [hst1roots]; exact sB
  have hedge : (s, r) ∈ st1.root_graph.edges := by
    rw [hst1graph]; exact mem_add_edge_self _ _ _
  have hsn : s ∈ st1.root_graph.nodes := by
    rw [hst1graph]; exact add_edge_mem_nodes_left _ _ _
  have hrn : r ∈ st1.root_graph.nodes := by
    rw [hst1graph]; exact add_edge_mem_nodes_right _ _ _
  have hnd1 : st1.root_graph.edges.Nodup := by
    rw [hst1graph]
    apply add_edge_nodup
    rw [eB, eA]
    exact hnd
  have hsecond : st1.add_root r (some [s]) none
      = .ok { st1 with root_graph := st1.root_graph.add_edge s r } :=
    add_root_single_ok st1 r s none st1 st1
      (create_root_present_none st1 r hrmem) (create_root_present_none st1 s hsmem)
  rw [hsecond, add_edge_eq_self _ _ _ hsn hrn hedge] at h2
  have hni : ({ st1 with root_graph := st1.root_graph } : EtymologyData) = st2 := by
    injection h2
  have hst : st1 = st2 := hni
  subst hst
  exact ⟨filter_singleton_of_nodup _ _ hnd1 hedge, rfl⟩

/-- Witness for C4 starting from the empty store. -/
theorem C4_add_root_same_source_idempotent_witness :
    EtymologyData.empty.root_graph.edges.Nodup
    ∧ EtymologyData.empty.add_root (strOf "b x z") (some [strOf "a x y"]) none = .ok c4_st1
    ∧ c4_st1.add_root (strOf "b x z") (some [strOf "a x y"]) none = .ok c4_st2
    ∧ (c4_st2.root_graph.edges.filter
        (fun e => decide (e = (strOf "a x y", strOf "b x z")))).length = 1
    ∧ c4_st2.root_graph.nodes = c4_st1.root_graph.nodes :=
  ⟨by decide, rfl, rfl,
   (C4_add_root_same_source_idempotent EtymologyData.empty (strOf "b x z") (strOf "a x y")
     c4_st1 c4_st2 (by decide) rfl rfl).1,
   (C4_add_root_same_source_idempotent EtymologyData.empty (strOf "b x z") (strOf "a x y")
     c4_st1 c4_st2 (by decide) rfl rfl).2⟩

/-- C5: a root created by `add_root` with two distinct sources `[a, b]` is
compound and not inherited, whatever `a` and `b` are. -/
theorem C5_two_sources_compound_not_inherited (st st' : EtymologyData) (r a b : Str)
    (hab : a ≠ b) (h : st.add_root r (some [a, b]) none = .ok st')
    (rd : Root) (hrd : dictGet st'.roots r = some rd) (hstr : rd.str = r) :
    rd.is_compound st' = true ∧ rd.is_inherited st' = .ok (some false) := by
  have hedges := add_root_ok_edges st r [a, b] none st' (by simp) h
  have ha : (a, r) ∈ st'.root_graph.edges := hedges a (by simp)
  have hb : (b, r) ∈ st'.root_graph.edges := hedges b (by simp)
  have hamem : a ∈ rd.sources st' := by
    unfold Root.sources DiGraph.predecessors
    rw [hstr]
    exact List.mem_map.mpr ⟨(a, r), List.mem_filter.mpr ⟨ha, by simp⟩, rfl⟩
  have hbmem : b ∈ rd.sources st' := by
    unfold Root.sources DiGraph.predecessors
    rw [hstr]
    exact List.mem_map.mpr ⟨(b, r), List.mem_filter.mpr ⟨hb, by simp⟩, rfl⟩
  have hlen : 1 < (rd.sources st').length := two_mem_one_lt _ a b hamem hbmem hab
  have hcomp : rd.is_compound st' = true := decide_eq_true hlen
  refine ⟨hcomp, ?_⟩
  simp [Root.is_inherited, hcomp]

/-- Witness for C5: root `"c x y"` compounded from `"a x y"` and
`"b x y"` in a fresh store. -/
theorem C5_two_sources_compound_not_inherited_witness :
    strOf "a x y" ≠ strOf "b x y"
    ∧ EtymologyData.empty.add_root (strOf "c x y")
        (some [strOf "a x y", strOf "b x y"]) none = .ok c5_st
    ∧ dictGet c5_st.roots (strOf "c x y") = some c5_rd
    ∧ c5_rd.str = strOf "c x y"
    ∧ c5_rd.is_compound c5_st = true
    ∧ c5_rd.is_inherited c5_st = .ok (some false) :=
  ⟨by decide, rfl, rfl, rfl,
   (C5_two_sources_compound_not_inherited EtymologyData.empty c5_st (strOf "c x y")
     (strOf "a x y") (strOf "b x y") (by decide) rfl c5_rd rfl rfl).1,
   (C5_two_sources_compound_not_inherited EtymologyData.empty c5_st (strOf "c x y")
     (strOf "a x y") (strOf "b x y") (by decide) rfl c5_rd rfl rfl).2⟩

/-- C6: with `lang2` added as a child of `lang1` and a root
`"lang2 t g"` derived from `"lang1 t g"`, the root is not compound and
`is_inherited()` is `True`. -/
theorem C6_parent_language_source_inherited (l1 l2 t g : Str)
    (h1 : cleanTok l1) (h2 : cleanTok l2) (ht : cleanTok t) (hg : cleanTok g)
    (hne : l1 ≠ l2) :
    ((EtymologyData.empty.add_lang l2 (some l1) none).add_root
        (pyJoinSpace [l2, t, g]) (some [pyJoinSpace [l1, t, g]]) none).map
      (fun st' => (dictGet st'.roots (pyJoinSpace [l2, t, g])).map
        (fun rd => (rd.is_compound st', rd.is_inherited st')))
    = .ok (some (false, .ok (some true))) := by
  have hne2 : l2 ≠ l1 := Ne.symm hne
  have hs2 : pySplit (pyJoinSpace [l2, t, g]) = [l2, t, g] := pySplit_join3 l2 t g h2 ht hg
  have hs1 : pySplit (pyJoinSpace [l1, t, g]) = [l1, t, g] := pySplit_join3 l1 t g h1 ht hg
  have hks : pyJoinSpace [l2, t, g] ≠ pyJoinSpace [l1, t, g] := by
    intro he
    exact hne2 (pyJoinSpace_inj3 l2 t g l1 t g h2 ht hg h1 ht hg he).1
  have hks2 : pyJoinSpace [l1, t, g] ≠ pyJoinSpace [l2, t, g] := Ne.symm hks
  have e0 : EtymologyData.empty.add_lang l2 (some l1) none
      = ⟨⟨[l1, l2], [(l1, l2)]⟩, DiGraph.empty,
         [(l1, ⟨l1, none⟩), (l2, ⟨l2, none⟩)], [], none, none⟩ := by
    simp [EtymologyData.add_lang, EtymologyData.create_lang, EtymologyData.empty,
      DiGraph.empty, DiGraph.add_node, DiGraph.add_edge, dictGet, dictSet,
      h1.1, h2.1, hne, hne2]
  rw [e0]
  simp [EtymologyData.add_root, EtymologyData.add_root_sources, EtymologyData.create_root,
    Root.mk?, hs1, hs2, hks, hks2, hne, hne2, dictGet, dictSet, DiGraph.add_node,
    DiGraph.add_edge, DiGraph.empty, Except.map, Option.map, Root.is_compound,
    Root.sources, Root.is_inherited, Root.str, Root.language, pyDictGet,
    DiGraph.predecessors, Lang.source, DiGraph.successors, pyIdx, pyEqOpt,
    List.get?, List.head?]

/-- Witness for C6 with languages `lang1`, `lang2` and root text/gloss
`foo`/`bar`. -/
theorem C6_parent_language_source_inherited_witness :
    cleanTok (strOf "lang1") ∧ cleanTok (strOf "lang2") ∧ cleanTok (strOf "foo")
    ∧ cleanTok (strOf "bar") ∧ strOf "lang1" ≠ strOf "lang2" ∧ c6_goal :=
  ⟨by decide, by decide, by decide, by decide, by decide,
   C6_parent_language_source_inherited (strOf "lang1") (strOf "lang2") (strOf "foo")
     (strOf "bar") (by decide) (by decide) (by decide) (by decide) (by decide)⟩

/-- C7: when `vocab()` succeeds it returns exactly the root-graph nodes
whose first (language) token equals the language's name. -/
theorem C7_vocab_exactly_language_roots (st : EtymologyData) (l : Lang) (v : List Str)
    (hv : l.vocab st = .ok v) (k : Str) :
    k ∈ v ↔ k ∈ st.root_graph.nodes ∧ (pySplit k).head? = some l.name :=
  vocabGo_mem l.name k st.root_graph.nodes v hv

/-- Witness for C7: in `c7_st`, language `a` has vocabulary `["a x y"]`,
which contains `"a x y"` and excludes the colliding `"b x y"`. -/
theorem C7_vocab_exactly_language_roots_witness :
    (Lang.vocab c7_st ⟨strOf "a", none⟩ = .ok [strOf "a x y"])
    ∧ (strOf "a x y" ∈ ([strOf "a x y"] : List Str)
        ↔ strOf "a x y" ∈ c7_st.root_graph.nodes
          ∧ (pySplit (strOf "a x y")).head? = some (strOf "a"))
    ∧ (strOf "b x y" ∈ ([strOf "a x y"] : List Str)
        ↔ strOf "b x y" ∈ c7_st.root_graph.nodes
          ∧ (pySplit (strOf "b x y")).head? = some (strOf "a")) :=
  ⟨rfl,
   C7_vocab_exactly_language_roots c7_st ⟨strOf "a", none⟩ [strOf "a x y"] rfl (strOf "a x y"),
   C7_vocab_exactly_language_roots c7_st ⟨strOf "a", none⟩ [strOf "a x y"] rfl (strOf "b x y")⟩

/-- C8: a canonical three-token key inserted via `add_lang` or `add_root`
is looked up as an entity whose rendered key equals the inserted key. -/
theorem C8_inserted_key_renders_identically (st : EtymologyData) (t1 t2 t3 : Str)
    (info : Option Info)
    (h1 : cleanTok t1) (h2 : cleanTok t2) (h3 : cleanTok t3)
    (hLabs : dictGet st.langs (pyJoinSpace [t1, t2, t3]) = none)
    (hRabs : dictGet st.roots (pyJoinSpace [t1, t2, t3]) = none) :
    ((dictGet (st.add_lang (pyJoinSpace [t1, t2, t3]) none info).langs
        (pyJoinSpace [t1, t2, t3])).map Lang.str = some (pyJoinSpace [t1, t2, t3]))
    ∧ ((st.add_root (pyJoinSpace [t1, t2, t3]) none info).map
        (fun st2 => (dictGet st2.roots (pyJoinSpace [t1, t2, t3])).map Root.str)
        = .ok (some (pyJoinSpace [t1, t2, t3]))) := by
  constructor
  · simp only [EtymologyData.add_lang, EtymologyData.create_lang, hLabs]
    rw [dictGet_dictSet_self]
    rfl
  · simp only [EtymologyData.add_root, EtymologyData.create_root, hRabs, Root.mk?,
      pySplit_join3 t1 t2 t3 h1 h2 h3]
    rw [Except.map, dictGet_dictSet_self]
    rfl

/-- Witness for C8 on the empty store and key `"a x y"`. -/
theorem C8_inserted_key_renders_identically_witness :
    cleanTok (strOf "a") ∧ cleanTok (strOf "x") ∧ cleanTok (strOf "y")
    ∧ dictGet EtymologyData.empty.langs (pyJoinSpace [strOf "a", strOf "x", strOf "y"]) = none
    ∧ dictGet EtymologyData.empty.roots (pyJoinSpace [strOf "a", strOf "x", strOf "y"]) = none
    ∧ (((dictGet (EtymologyData.empty.add_lang
          (pyJoinSpace [strOf "a", strOf "x", strOf "y"]) none none).langs
          (pyJoinSpace [strOf "a", strOf "x", strOf "y"])).map Lang.str
        = some (pyJoinSpace [strOf "a", strOf "x", strOf "y"]))
      ∧ ((EtymologyData.empty.add_root
          (pyJoinSpace [strOf "a", strOf "x", strOf "y"]) none none).map
          (fun st2 => (dictGet st2.roots
            (pyJoinSpace [strOf "a", strOf "x", strOf "y"])).map Root.str)
        = .ok (some (pyJoinSpace [strOf "a", strOf "x", strOf "y"])))) :=
  ⟨by decide, by decide, by decide, rfl, rfl,
   C8_inserted_key_renders_identically EtymologyData.empty (strOf "a") (strOf "x") (strOf "y")
     none (by decide) (by decide) (by decide) rfl rfl⟩

/-- C9: a root with zero recorded sources (no predecessors of its rendered
key in the root-derivation graph) gets `is_inherited() = None`, the
explicit unknown value — never `True` or `False`. -/
theorem C9_no_sources_inherited_unknown (st : EtymologyData) (rd : Root)
    (hmem : rd.str ∈ st.root_graph.nodes) (h0 : rd.sources st = []) :
    rd.is_inherited st = .ok none := by
  simp [Root.is_inherited, Root.is_compound, h0]

/-- Witness for C9 at the concrete store `c9_st`. -/
theorem C9_no_sources_inherited_unknown_witness :
    c9_rd.str ∈ c9_st.root_graph.nodes ∧ c9_rd.sources c9_st = []
    ∧ c9_rd.is_inherited c9_st = .ok none :=
  ⟨by decide, rfl, C9_no_sources_inherited_unknown c9_st c9_rd (by decide) rfl⟩

/-- C10: `add_langs_from(langs)` with `sources` omitted raises `TypeError`
at the `zip(langs, None)` call, before any insertion, for every non-empty
list of names (indeed for every list). -/
theorem C10_add_langs_from_none_sources_raises (st : EtymologyData)
    (langs : List Str) (info : Option Info) (h : langs ≠ []) :
    st.add_langs_from langs none info
      = .error "TypeError: zip argument 2 must support iteration" :=
  rfl

/-- Witness for C10 on a singleton name list and the empty store. -/
theorem C10_add_langs_from_none_sources_raises_witness :
    ([strOf "a"] : List Str) ≠ []
    ∧ EtymologyData.empty.add_langs_from [strOf "a"] none none
        = .error "TypeError: zip argument 2 must support iteration" :=
  ⟨by decide,
   C10_add_langs_from_none_sources_raises EtymologyData.empty [strOf "a"] none (by decide)⟩

